import Mathlib

/-!
Verification of the JiraStopWatch core: the duration codec
(src/jirastopwatch/utils.py), the timer state machine and registry, the
pending worklog queue and the worklog submission coordinator
(src/jirastopwatch/app.py, src/jirastopwatch/models.py).

Modelling conventions:
* Python strings are modelled as Lean `String` / `List Char`; character
  classification (str.isdigit, str.isspace) is modelled on the ASCII range,
  which is the range the duration codec is used on.
* Python integer wall-clock timestamps are modelled as `Int` (whole
  seconds); Python's `int(...)` truncation of a difference of whole-second
  floats is then the identity.
* A Python duration token string is modelled by its numeric value together
  with an emptiness flag (`Option Nat`): appending a digit character maps
  to `10 * v + d`, and `int(token)` is then the value itself.
* GUI message boxes and status labels are out of the model except where a
  claim mentions them; confirmations become explicit boolean parameters.
-/

namespace JiraStopWatch

/-! ### Character classification (Python str.isdigit / str.isspace, ASCII) -/

/-- Python `char.isdigit()` restricted to ASCII: the characters 0..9. -/
def pyIsDigit (c : Char) : Bool := 48 ≤ c.toNat && c.toNat ≤ 57

/-- Python `char.isspace()` restricted to ASCII whitespace. -/
def pyIsSpace (c : Char) : Bool :=
  c.toNat = 32 || c.toNat = 9 || c.toNat = 10 || c.toNat = 13 || c.toNat = 11 || c.toNat = 12

/-- A character that is neither a digit nor whitespace. -/
def ndns (c : Char) : Bool := !pyIsDigit c && !pyIsSpace c

/-- One of the four recognized duration suffixes d, h, m, s. -/
def isSuffixChar (c : Char) : Bool :=
  c.toNat = 100 || c.toNat = 104 || c.toNat = 109 || c.toNat = 115

/-- A non-digit, non-space character that is not a recognized suffix. -/
def isOtherChar (c : Char) : Bool := ndns c && !isSuffixChar c

/-! ### Duration codec (src/jirastopwatch/utils.py) -/

def SECONDS_PER_MINUTE : Nat := 60
def SECONDS_PER_HOUR : Nat := 60 * SECONDS_PER_MINUTE
def SECONDS_PER_DAY : Nat := 24 * SECONDS_PER_HOUR

/-- One iteration of the character loop of `parse_duration`.  The state is
the running total together with the current digit token (`none` models the
empty Python token string, `some v` a non-empty token of value `v`). -/
def stepChar (st : Nat × Option Nat) (c : Char) : Except String (Nat × Option Nat) :=
  if pyIsDigit c then
    .ok (st.1, some (10 * st.2.getD 0 + (c.toNat - 48)))
  else if pyIsSpace c then
    match st.2 with
    | some _ => .error "Suffix missing for duration segment"
    | none => .ok st
  else
    match st.2 with
    | none => .error "Missing value before suffix"
    | some value =>
      if c = 'd' then .ok (st.1 + value * SECONDS_PER_DAY, none)
      else if c = 'h' then .ok (st.1 + value * SECONDS_PER_HOUR, none)
      else if c = 'm' then .ok (st.1 + value * SECONDS_PER_MINUTE, none)
      else if c = 's' then .ok (st.1 + value, none)
      else .error "Unknown suffix in duration"

/-- The character loop of `parse_duration`. -/
def runChars : List Char → Nat × Option Nat → Except String (Nat × Option Nat)
  | [], st => .ok st
  | c :: cs, st =>
    match stepChar st c with
    | .ok st2 => runChars cs st2
    | .error e => .error e

/-- Python `str.strip()`: drop leading and trailing whitespace. -/
def pyStrip (cs : List Char) : List Char :=
  ((cs.dropWhile pyIsSpace).reverse.dropWhile pyIsSpace).reverse

/-- `parse_duration` on a character list: strip, reject the empty input,
run the character loop, reject a trailing suffix-less token. -/
def parseDurationChars (cs : List Char) : Except String Nat :=
  let t := pyStrip cs
  if t = [] then .error "Duration cannot be empty"
  else
    match runChars t (0, none) with
    | .error e => .error e
    | .ok (_, some _) => .error "Duration segment missing suffix"
    | .ok (total, none) => .ok total

/-- `parse_duration` from src/jirastopwatch/utils.py. -/
def parse_duration (s : String) : Except String Nat := parseDurationChars s.data

/-- The decimal digit character for d < 10 (Python f-string rendering). -/
def digitChar : Nat → Char
  | 0 => '0' | 1 => '1' | 2 => '2' | 3 => '3' | 4 => '4'
  | 5 => '5' | 6 => '6' | 7 => '7' | 8 => '8' | _ => '9'

/-- Decimal rendering of a natural number, fuel-indexed so that it is
structurally recursive (the fuel `n + 1` always suffices). -/
def natDigitsAux : Nat → Nat → List Char
  | 0, _ => []
  | fuel + 1, n =>
    if n < 10 then [digitChar n]
    else natDigitsAux fuel (n / 10) ++ [digitChar (n % 10)]

/-- Decimal rendering of a natural number (Python f-string of an int). -/
def natDigits (n : Nat) : List Char := natDigitsAux (n + 1) n

/-- Python `" ".join(parts)` on character lists. -/
def joinSpace : List (List Char) → List Char
  | [] => []
  | [p] => p
  | p :: ps => p ++ ' ' :: joinSpace ps

/-- `format_duration` on a nonnegative number of seconds: the
greedy day/hour/minute decomposition of src/jirastopwatch/utils.py. -/
def formatDurationNat (seconds : Nat) : List Char :=
  let pr0 : List (List Char) × Nat := ([], seconds)
  let pr1 :=
    if SECONDS_PER_DAY ≤ pr0.2 then
      (pr0.1 ++ [natDigits (pr0.2 / SECONDS_PER_DAY) ++ ['d']], pr0.2 % SECONDS_PER_DAY)
    else pr0
  let pr2 :=
    if SECONDS_PER_HOUR ≤ pr1.2 then
      (pr1.1 ++ [natDigits (pr1.2 / SECONDS_PER_HOUR) ++ ['h']], pr1.2 % SECONDS_PER_HOUR)
    else pr1
  let pr3 :=
    if SECONDS_PER_MINUTE ≤ pr2.2 then
      (pr2.1 ++ [natDigits (pr2.2 / SECONDS_PER_MINUTE) ++ ['m']], pr2.2 % SECONDS_PER_MINUTE)
    else pr2
  let parts :=
    if pr3.1 = [] ∨ pr3.2 ≠ 0 then pr3.1 ++ [natDigits pr3.2 ++ ['s']] else pr3.1
  joinSpace parts

/-- `format_duration` from src/jirastopwatch/utils.py: rejects negative
input, otherwise formats the greedy decomposition. -/
def format_duration (seconds : Int) : Except String String :=
  if seconds < 0 then .error "Duration cannot be negative"
  else .ok (String.mk (formatDurationNat seconds.toNat))

/-! ### Domain models (src/jirastopwatch/models.py, utils.Worklog) -/

/-- `TimerState` from src/jirastopwatch/models.py.  `last_started` is the
wall-clock instant (whole seconds) the current run segment began; Python
stores a float or None, and tests it for truthiness (None and 0.0 are
falsy), which the model mirrors with `lastStartedTruthy`. -/
structure TimerState where
  issue_key : String := ""
  description : String := ""
  seconds : Int := 0
  running : Bool := false
  last_started : Option Int := none
  comment : String := ""
  deriving DecidableEq, Repr

/-- `PendingWorklog` from src/jirastopwatch/models.py. -/
structure PendingWorklog where
  issue_key : String
  seconds : Int
  comment : String
  created_at : Int
  deriving DecidableEq, Repr

/-- `Worklog` from src/jirastopwatch/utils.py: the payload assembled right
before a post attempt. -/
structure Worklog where
  issue_key : String
  seconds : Int
  comment : String
  started : Int
  adjust_estimate : String
  remaining_estimate : Option Int
  deriving DecidableEq, Repr

/-- The state the application mutates: the ordered timer registry and the
pending worklog queue (JiraStopWatchApp.timers / .pending_worklogs). -/
structure AppState where
  timers : List TimerState
  pending : List PendingWorklog
  deriving DecidableEq, Repr

/-- Python truthiness of the `last_started` float: None and 0.0 are falsy. -/
def lastStartedTruthy : Option Int → Bool
  | none => false
  | some t => t != 0

/-- The value of a truthy `last_started` (never applied to None in code). -/
def lastStartedVal : Option Int → Int
  | none => 0
  | some t => t

/-! ### Timer operations (TimerRow in src/jirastopwatch/app.py) -/

/-- `TimerRow.current_seconds` (and the identical display computation in
`refresh_display`): the accumulated seconds plus, while running, the raw
difference `now - last_started` — the code applies no clamping here. -/
def current_seconds (s : TimerState) (now : Int) : Int :=
  if s.running && lastStartedTruthy s.last_started then
    s.seconds + (now - lastStartedVal s.last_started)
  else s.seconds

/-- `TimerRow.pause_timer`: fold the elapsed run segment, clamped at zero,
into the accumulated seconds and stop. -/
def pause_timer (s : TimerState) (now : Int) : TimerState :=
  if !s.running then s
  else
    let elapsed : Int :=
      if lastStartedTruthy s.last_started then now - lastStartedVal s.last_started else 0
    { s with seconds := s.seconds + max 0 elapsed, running := false, last_started := none }

/-- The mutation `TimerRow.start_timer` applies to its own state (before
notifying the controller): mark running and stamp the start instant. -/
def start_timer_row (s : TimerState) (now : Int) : TimerState :=
  { s with running := true, last_started := some now }

/-- `TimerRow.reset_timer`: zero the timer, but only when the user confirms
the message box. -/
def reset_timer (s : TimerState) (confirm : Bool) : TimerState :=
  if confirm then { s with seconds := 0, running := false, last_started := none } else s

/-- `TimerRow.prepare_for_exit`: fold the running segment (clamped at zero
by `max(0, elapsed)`) into the accumulated seconds and restamp the start. -/
def prepare_for_exit (s : TimerState) (now : Int) : TimerState :=
  if s.running && lastStartedTruthy s.last_started then
    { s with seconds := s.seconds + max 0 (now - lastStartedVal s.last_started),
             last_started := some now }
  else s

/-! ### Timer registry (JiraStopWatchApp in src/jirastopwatch/app.py) -/

/-- The restore applied per state inside `JiraStopWatchApp._load_timers`:
for a persisted running timer, credit the wall-clock gap since the
persisted `last_started`, clamped at zero, and restamp `last_started`. -/
def restore_timer (state : TimerState) (now : Int) : TimerState :=
  if state.running && lastStartedTruthy state.last_started then
    { state with seconds := state.seconds + max 0 (now - lastStartedVal state.last_started),
                 last_started := some now }
  else state

/-- Python `TimerState()` with all defaults. -/
def TimerState.init : TimerState := {}

/-- `JiraStopWatchApp._load_timers`: when the persisted list is empty a
single fresh timer is created; every restored running timer is credited
the elapsed gap. -/
def _load_timers (states : List TimerState) (now : Int) : List TimerState :=
  (if states = [] then [TimerState.init] else states).map (restore_timer · now)

/-- The pause loop of `JiraStopWatchApp.timer_started`, walking the
registry with its display index: every running timer other than the row
at index `i` is paused.  `j` is the index of the head of the remaining
list. -/
def timer_started_aux (now : Int) (i : Nat) : Nat → List TimerState → List TimerState
  | _, [] => []
  | j, s :: rest =>
    (if j ≠ i ∧ s.running then pause_timer s now else s) :: timer_started_aux now i (j + 1) rest

/-- `JiraStopWatchApp.timer_started` restricted to registry state: pauses
every other running timer (the issue transition call is external). -/
def timer_started (timers : List TimerState) (i : Nat) (now : Int) : List TimerState :=
  timer_started_aux now i 0 timers

/-- `TimerRow.start_timer` at registry level: reject an empty issue key,
otherwise mark the row running with `last_started = now` and let
`timer_started` pause every other running timer. -/
def start_timer (timers : List TimerState) (i : Nat) (now : Int) : List TimerState :=
  match timers[i]? with
  | none => timers
  | some s =>
    if s.issue_key = "" then timers
    else timer_started (timers.set i (start_timer_row s now)) i now

/-! ### Worklog submission coordinator (JiraStopWatchApp) -/

/-- Replace the timer at index `i` (used for the success-path reset). -/
def modifyTimerAt (f : TimerState → TimerState) : Nat → List TimerState → List TimerState
  | _, [] => []
  | 0, s :: rest => f s :: rest
  | n + 1, s :: rest => s :: modifyTimerAt f n rest

/-- `JiraStopWatchApp.save_worklog_for_later`: append one pending entry
built from the attempted submission (`created_at = datetime.now()`). -/
def save_worklog_for_later (st : AppState) (worklog : Worklog) (now : Int) : AppState :=
  { st with pending := st.pending ++
      [{ issue_key := worklog.issue_key, seconds := worklog.seconds,
         comment := worklog.comment, created_at := now }] }

/-- `JiraStopWatchApp._handle_worklog_failure`: enqueue the failed draft,
then surface the error (the error dialog does not touch the state). -/
def _handle_worklog_failure (st : AppState) (worklog : Worklog) (now : Int) : AppState :=
  save_worklog_for_later st worklog now

/-- `JiraStopWatchApp._worklog_posted`: on success the originating row is
reset (`reset_timer` itself asks for confirmation). -/
def _worklog_posted (st : AppState) (i : Nat) (confirm : Bool) : AppState :=
  { st with timers := modifyTimerAt (reset_timer · confirm) i st.timers }

/-- `JiraStopWatchApp.post_worklog` after the dialog produced a draft for
the row at index `i`: on "save for later" enqueue and return; otherwise
attempt the post through the external client `post`, resetting the row on
success and falling back to the pending queue on failure. -/
def post_worklog (st : AppState) (i : Nat) (worklog : Worklog) (save_for_later : Bool)
    (post : Worklog → Except String String) (confirm : Bool) (now : Int) : AppState :=
  if save_for_later then save_worklog_for_later st worklog now
  else
    match post worklog with
    | .ok _ => _worklog_posted st i confirm
    | .error _ => _handle_worklog_failure st worklog now

/-- The payload `post_pending_worklogs._post_all` builds for one pending
entry: fresh `started`, automatic estimate adjustment. -/
def pendingPayload (w : PendingWorklog) (now : Int) : Worklog :=
  { issue_key := w.issue_key, seconds := w.seconds, comment := w.comment,
    started := now, adjust_estimate := "auto", remaining_estimate := none }

/-- The `_post_all` loop of `JiraStopWatchApp.post_pending_worklogs`: post
each snapshot entry in order, stopping at the first failure. -/
def postAllLoop (post : Worklog → Except String String) (now : Int) :
    List PendingWorklog → Except String (List String)
  | [] => .ok []
  | w :: ws =>
    match post (pendingPayload w now) with
    | .error e => .error e
    | .ok id =>
      match postAllLoop post now ws with
      | .error e => .error e
      | .ok ids => .ok (id :: ids)

/-- `JiraStopWatchApp.post_pending_worklogs`: nothing happens without
pending entries or configuration; on any failure `_handle_error` leaves
the queue untouched; only the success callback
`_pending_worklogs_posted` clears the queue. -/
def post_pending_worklogs (st : AppState) (configured : Bool)
    (post : Worklog → Except String String) (now : Int) : AppState :=
  if st.pending = [] then st
  else if !configured then st
  else
    match postAllLoop post now st.pending with
    | .error _ => st
    | .ok _ => { st with pending := [] }

/-! ### Pending queue removal (JiraStopWatchApp.remove_pending_by_indices) -/

/-- Python `sorted(indices, reverse=True)`: descending order. -/
def sortDescending (indices : List Nat) : List Nat :=
  indices.insertionSort (· ≥ ·)

/-- `JiraStopWatchApp.remove_pending_by_indices`: pop the given positions
from the queue, processing indices in descending order, skipping
out-of-range ones. -/
def remove_pending_by_indices (pending : List PendingWorklog) (indices : List Nat) :
    List PendingWorklog :=
  (sortDescending indices).foldl
    (fun ws index => if index < ws.length then ws.eraseIdx index else ws) pending

/-! ### Spec-side definitions for the duration claims -/

/-- The multiplier the spec assigns to each recognized suffix. -/
def suffixVal (c : Char) : Nat :=
  if c = 'd' then SECONDS_PER_DAY
  else if c = 'h' then SECONDS_PER_HOUR
  else if c = 'm' then SECONDS_PER_MINUTE
  else 1

/-- The rendered text of one duration token: decimal value then suffix. -/
def renderPart (p : Nat × Char) : List Char := natDigits p.1 ++ [p.2]

/-- The seconds value of one duration token. -/
def partVal (p : Nat × Char) : Nat := p.1 * suffixVal p.2

/-- The summed seconds value of a token list. -/
def sumVal (ps : List (Nat × Char)) : Nat := (ps.map partVal).sum

/-- The token list the spec says `formatDuration` emits: the greedy
day/hour/minute/second decomposition in descending order, only nonzero
units, except that for totals below one minute the seconds component is
always emitted.  Written from the spec text, to be compared with the
code-translated `formatDurationNat`. -/
def specGreedyParts (s : Nat) : List (Nat × Char) :=
  (if s / SECONDS_PER_DAY ≠ 0 then [(s / SECONDS_PER_DAY, 'd')] else []) ++
  (if s % SECONDS_PER_DAY / SECONDS_PER_HOUR ≠ 0 then
    [(s % SECONDS_PER_DAY / SECONDS_PER_HOUR, 'h')] else []) ++
  (if s % SECONDS_PER_HOUR / SECONDS_PER_MINUTE ≠ 0 then
    [(s % SECONDS_PER_HOUR / SECONDS_PER_MINUTE, 'm')] else []) ++
  (if s % SECONDS_PER_MINUTE ≠ 0 ∨ s < SECONDS_PER_MINUTE then
    [(s % SECONDS_PER_MINUTE, 's')] else [])

/-- Does some adjacent character pair satisfy p. -/
def adjAny (p : Char → Char → Bool) (cs : List Char) : Bool :=
  (cs.zip cs.tail).any fun q => p q.1 q.2

/-- Failure condition of the claim: input empty or whitespace-only. -/
def condEmptyOrWhite (cs : List Char) : Bool := (pyStrip cs).isEmpty

/-- Failure condition of the claim: a digit run is immediately followed by
an unrecognized suffix character. -/
def condDigitThenUnknown (cs : List Char) : Bool :=
  adjAny (fun a b => pyIsDigit a && isOtherChar b) (pyStrip cs)

/-- Failure condition of the claim: whitespace interrupts a digit run
before its suffix. -/
def condDigitThenSpace (cs : List Char) : Bool :=
  adjAny (fun a b => pyIsDigit a && pyIsSpace b) (pyStrip cs)

/-- Failure condition of the claim: trailing digits have no suffix. -/
def condTrailingDigits (cs : List Char) : Bool :=
  ((pyStrip cs).getLast?.map pyIsDigit).getD false

/-- The disjunction of the four failure conditions listed by the claim. -/
def claimFailCond (cs : List Char) : Bool :=
  condEmptyOrWhite cs || condDigitThenUnknown cs || condDigitThenSpace cs ||
    condTrailingDigits cs

/-- The failure condition the claim omits: a suffix (or other non-digit,
non-space) character that is not immediately preceded by a digit, so that
no value precedes it. -/
def condMissingValue (cs : List Char) : Bool :=
  ((pyStrip cs).head?.map ndns).getD false ||
    adjAny (fun a b => !pyIsDigit a && ndns b) (pyStrip cs)

/-- The amended failure condition: the claim's four conditions plus the
missing-value condition. -/
def amendedFailCond (cs : List Char) : Bool :=
  claimFailCond cs || condMissingValue cs

/-- Is an Except value a success. -/
def exceptIsOk : Except String α → Bool
  | .ok _ => true
  | .error _ => false

/-- The remaining entries after removing a set of positions: keep exactly
the elements whose position is not listed, in their original relative
order (`j` is the position of the head). -/
def keepNotIn (S : List Nat) : Nat → List α → List α
  | _, [] => []
  | j, a :: l => if j ∈ S then keepNotIn S (j + 1) l else a :: keepNotIn S (j + 1) l

/-! ### Character class lemmas -/

theorem charToNat_inj {c d : Char} (h : c.toNat = d.toNat) : c = d :=
  Char.eq_of_val_eq (UInt32.ext h)

theorem charEq_iff_toNat {c d : Char} : c = d ↔ c.toNat = d.toNat :=
  ⟨fun h => h ▸ rfl, charToNat_inj⟩

theorem pyIsDigit_iff {c : Char} : pyIsDigit c = true ↔ 48 ≤ c.toNat ∧ c.toNat ≤ 57 := by
  simp [pyIsDigit]

theorem pyIsSpace_iff {c : Char} :
    pyIsSpace c = true ↔
      c.toNat = 32 ∨ c.toNat = 9 ∨ c.toNat = 10 ∨ c.toNat = 13 ∨ c.toNat = 11 ∨ c.toNat = 12 := by
  simp [pyIsSpace, Bool.or_eq_true]
  tauto

theorem isSuffixChar_iff {c : Char} :
    isSuffixChar c = true ↔
      c.toNat = 100 ∨ c.toNat = 104 ∨ c.toNat = 109 ∨ c.toNat = 115 := by
  simp [isSuffixChar, Bool.or_eq_true]
  tauto

theorem digit_not_space {c : Char} (h : pyIsDigit c = true) : pyIsSpace c = false := by
  rw [pyIsDigit_iff] at h
  by_contra hs
  rw [Bool.not_eq_false, pyIsSpace_iff] at hs
  omega

theorem digit_not_suffix {c : Char} (h : pyIsDigit c = true) : isSuffixChar c = false := by
  rw [pyIsDigit_iff] at h
  by_contra hs
  rw [Bool.not_eq_false, isSuffixChar_iff] at hs
  omega

theorem suffix_not_digit {c : Char} (h : isSuffixChar c = true) : pyIsDigit c = false := by
  rw [isSuffixChar_iff] at h
  by_contra hs
  rw [Bool.not_eq_false, pyIsDigit_iff] at hs
  omega

theorem suffix_not_space {c : Char} (h : isSuffixChar c = true) : pyIsSpace c = false := by
  rw [isSuffixChar_iff] at h
  by_contra hs
  rw [Bool.not_eq_false, pyIsSpace_iff] at hs
  omega

theorem suffix_cases {c : Char} (h : isSuffixChar c = true) :
    c = 'd' ∨ c = 'h' ∨ c = 'm' ∨ c = 's' := by
  rw [isSuffixChar_iff] at h
  rcases h with h | h | h | h
  · exact Or.inl (charToNat_inj h)
  · exact Or.inr (Or.inl (charToNat_inj h))
  · exact Or.inr (Or.inr (Or.inl (charToNat_inj h)))
  · exact Or.inr (Or.inr (Or.inr (charToNat_inj h)))

theorem not_suffix_ne {c : Char} (h : isSuffixChar c = false) :
    c ≠ 'd' ∧ c ≠ 'h' ∧ c ≠ 'm' ∧ c ≠ 's' := by
  refine ⟨?_, ?_, ?_, ?_⟩ <;> intro hc <;> subst hc <;> simp [isSuffixChar] at h

theorem ndns_of_suffix {c : Char} (h : isSuffixChar c = true) : ndns c = true := by
  simp [ndns, suffix_not_digit h, suffix_not_space h]

theorem digitChar_toNat {d : Nat} (h : d < 10) : (digitChar d).toNat = 48 + d := by
  interval_cases d <;> decide

theorem digitChar_isDigit {d : Nat} (h : d < 10) : pyIsDigit (digitChar d) = true := by
  interval_cases d <;> decide

/-! ### Parser composition lemmas -/

theorem stepChar_digit (st : Nat × Option Nat) {c : Char} (h : pyIsDigit c = true) :
    stepChar st c = .ok (st.1, some (10 * st.2.getD 0 + (c.toNat - 48))) := by
  simp [stepChar, h]

theorem stepChar_space_none (n : Nat) {c : Char} (h : pyIsSpace c = true)
    (hd : pyIsDigit c = false) : stepChar (n, none) c = .ok (n, none) := by
  simp [stepChar, h, hd]

theorem stepChar_suffix (n v : Nat) {c : Char} (h : isSuffixChar c = true) :
    stepChar (n, some v) c = .ok (n + v * suffixVal c, none) := by
  rcases suffix_cases h with hc | hc | hc | hc <;> subst hc <;>
    simp [stepChar, suffixVal, pyIsDigit, pyIsSpace]

theorem runChars_append (xs ys : List Char) (st : Nat × Option Nat) :
    runChars (xs ++ ys) st =
      match runChars xs st with
      | .ok st2 => runChars ys st2
      | .error e => .error e := by
  induction xs generalizing st with
  | nil => simp [runChars]
  | cons c cs ih =>
    simp only [List.cons_append, runChars]
    cases stepChar st c with
    | ok st2 => exact ih st2
    | error e => rfl

theorem runChars_natDigitsAux (fuel : Nat) :
    ∀ n total : Nat, n < fuel →
      runChars (natDigitsAux fuel n) (total, none) = .ok (total, some n) := by
  induction fuel with
  | zero => intro n _ h; omega
  | succ fuel ih =>
    intro n total h
    by_cases h10 : n < 10
    · simp only [natDigitsAux, if_pos h10, runChars,
        stepChar_digit (total, none) (digitChar_isDigit h10)]
      simp [digitChar_toNat h10]
    · have hlt : n / 10 < fuel := by
        have := Nat.div_lt_self (by omega : 0 < n) (by omega : 1 < 10)
        omega
      simp only [natDigitsAux, if_neg h10]
      rw [runChars_append, ih (n / 10) total hlt]
      have hm : n % 10 < 10 := Nat.mod_lt _ (by omega)
      simp only [runChars, stepChar_digit (total, some (n / 10)) (digitChar_isDigit hm),
        Option.getD_some]
      have : 10 * (n / 10) + ((digitChar (n % 10)).toNat - 48) = n := by
        rw [digitChar_toNat hm]
        omega
      rw [this]

theorem runChars_natDigits (n total : Nat) :
    runChars (natDigits n) (total, none) = .ok (total, some n) :=
  runChars_natDigitsAux (n + 1) n total (Nat.lt_succ_self n)

theorem natDigitsAux_ne_nil {fuel n : Nat} (h : 0 < fuel) : natDigitsAux fuel n ≠ [] := by
  cases fuel with
  | zero => omega
  | succ fuel =>
    simp only [natDigitsAux]
    split
    · simp
    · simp

theorem natDigits_ne_nil (n : Nat) : natDigits n ≠ [] :=
  natDigitsAux_ne_nil (Nat.succ_pos n)

theorem natDigitsAux_all_digits (fuel : Nat) :
    ∀ n c, c ∈ natDigitsAux fuel n → pyIsDigit c = true := by
  induction fuel with
  | zero => intro n c h; simp [natDigitsAux] at h
  | succ fuel ih =>
    intro n c h
    simp only [natDigitsAux] at h
    by_cases h10 : n < 10
    · rw [if_pos h10] at h
      simp only [List.mem_singleton] at h
      exact h ▸ digitChar_isDigit h10
    · rw [if_neg h10] at h
      rcases List.mem_append.mp h with h | h
      · exact ih _ _ h
      · simp only [List.mem_singleton] at h
        exact h ▸ digitChar_isDigit (Nat.mod_lt _ (by omega))

theorem natDigits_all_digits {n : Nat} {c : Char} (h : c ∈ natDigits n) :
    pyIsDigit c = true :=
  natDigitsAux_all_digits (n + 1) n c h

theorem renderPart_ne_nil (p : Nat × Char) : renderPart p ≠ [] := by
  simp only [renderPart]
  intro h
  exact natDigits_ne_nil p.1 (List.append_eq_nil.mp h).1

theorem joinSpace_cons (p : List Char) {ps : List (List Char)} (h : ps ≠ []) :
    joinSpace (p :: ps) = p ++ ' ' :: joinSpace ps := by
  cases ps with
  | nil => exact absurd rfl h
  | cons q qs => rfl

theorem head?_append_of_ne_nil {l l2 : List α} (h : l ≠ []) :
    (l ++ l2).head? = l.head? := by
  cases l with
  | nil => exact absurd rfl h
  | cons a t => rfl

theorem joinSpace_render_ne_nil {ps : List (Nat × Char)} (h : ps ≠ []) :
    joinSpace (ps.map renderPart) ≠ [] := by
  cases ps with
  | nil => exact absurd rfl h
  | cons p qs =>
    cases qs with
    | nil => exact renderPart_ne_nil p
    | cons q rs =>
      simp only [List.map_cons]
      rw [joinSpace_cons _ (by simp)]
      intro hc
      exact renderPart_ne_nil p (List.append_eq_nil.mp hc).1

theorem joinSpace_render_head {ps : List (Nat × Char)} (h : ps ≠ []) :
    ∃ c, (joinSpace (ps.map renderPart)).head? = some c ∧ pyIsDigit c = true := by
  cases ps with
  | nil => exact absurd rfl h
  | cons p qs =>
    have hd : ∃ c, (renderPart p).head? = some c ∧ pyIsDigit c = true := by
      simp only [renderPart]
      rw [head?_append_of_ne_nil (natDigits_ne_nil p.1)]
      cases hnd : (natDigits p.1).head? with
      | none =>
        exact absurd (List.head?_eq_none_iff.mp hnd) (natDigits_ne_nil p.1)
      | some c =>
        exact ⟨c, rfl, natDigits_all_digits (List.mem_of_mem_head? hnd)⟩
    cases qs with
    | nil => exact hd
    | cons q rs =>
      simp only [List.map_cons]
      rw [joinSpace_cons _ (by simp), head?_append_of_ne_nil (renderPart_ne_nil p)]
      exact hd

theorem joinSpace_render_last {ps : List (Nat × Char)} (h : ps ≠ []) :
    ∃ p, p ∈ ps ∧ (joinSpace (ps.map renderPart)).getLast? = some p.2 := by
  induction ps with
  | nil => exact absurd rfl h
  | cons p qs ih =>
    cases qs with
    | nil =>
      refine ⟨p, List.mem_singleton.mpr rfl, ?_⟩
      show (renderPart p).getLast? = some p.2
      simp only [renderPart]
      rw [List.getLast?_append_of_ne_nil _ (by simp)]
      rfl
    | cons q rs =>
      obtain ⟨r, hr, hlast⟩ := ih (by simp)
      refine ⟨r, List.mem_cons_of_mem p hr, ?_⟩
      rw [show (p :: q :: rs).map renderPart = renderPart p :: (q :: rs).map renderPart from
        rfl]
      rw [joinSpace_cons _ (by simp)]
      rw [List.getLast?_append_of_ne_nil _ (by simp)]
      rw [show (' ' :: joinSpace ((q :: rs).map renderPart)) =
          [' '] ++ joinSpace ((q :: rs).map renderPart) from rfl]
      rw [List.getLast?_append_of_ne_nil _ (joinSpace_render_ne_nil (by simp))]
      exact hlast

theorem dropWhile_eq_self_of_head {l : List Char} {p : Char → Bool}
    (h : ∀ c, l.head? = some c → p c = false) : l.dropWhile p = l := by
  cases l with
  | nil => rfl
  | cons a t =>
    rw [List.dropWhile_cons, h a rfl]
    simp

theorem pyStrip_eq_self {cs : List Char}
    (h1 : ∀ c, cs.head? = some c → pyIsSpace c = false)
    (h2 : ∀ c, cs.getLast? = some c → pyIsSpace c = false) : pyStrip cs = cs := by
  unfold pyStrip
  rw [dropWhile_eq_self_of_head h1]
  rw [dropWhile_eq_self_of_head (by rw [List.head?_reverse]; exact h2)]
  exact List.reverse_reverse cs

theorem runChars_joinSpace_render (ps : List (Nat × Char)) :
    ∀ n : Nat, ps ≠ [] → (∀ p ∈ ps, isSuffixChar p.2 = true) →
      runChars (joinSpace (ps.map renderPart)) (n, none) = .ok (n + sumVal ps, none) := by
  induction ps with
  | nil => intro n h _; exact absurd rfl h
  | cons p qs ih =>
    intro n _ hsuf
    have hp : isSuffixChar p.2 = true := hsuf p (List.mem_cons_self p qs)
    cases qs with
    | nil =>
      show runChars (renderPart p) (n, none) = _
      simp only [renderPart]
      rw [runChars_append, runChars_natDigits]
      simp only [runChars, stepChar_suffix n p.1 hp]
      simp [sumVal, partVal]
    | cons q rs =>
      rw [show (p :: q :: rs).map renderPart = renderPart p :: (q :: rs).map renderPart from
        rfl]
      rw [joinSpace_cons _ (by simp)]
      rw [show renderPart p ++ ' ' :: joinSpace ((q :: rs).map renderPart) =
          natDigits p.1 ++ ([p.2] ++ (' ' :: joinSpace ((q :: rs).map renderPart))) from by
        simp [renderPart]]
      rw [runChars_append, runChars_natDigits]
      show runChars ([p.2] ++ (' ' :: joinSpace ((q :: rs).map renderPart))) (n, some p.1) = _
      rw [runChars_append]
      rw [show runChars [p.2] (n, some p.1) = .ok (n + p.1 * suffixVal p.2, none) from by
        simp only [runChars, stepChar_suffix n p.1 hp]]
      show runChars (' ' :: joinSpace ((q :: rs).map renderPart))
        (n + p.1 * suffixVal p.2, none) = _
      simp only [runChars]
      rw [stepChar_space_none _ (by decide) (by decide)]
      show runChars (joinSpace ((q :: rs).map renderPart)) (n + p.1 * suffixVal p.2, none) = _
      rw [ih (n + p.1 * suffixVal p.2) (by simp)
        (fun r hr => hsuf r (List.mem_cons_of_mem p hr))]
      simp only [sumVal, partVal, List.map_cons, List.sum_cons]
      rw [Nat.add_assoc]

/-! ### Formatter structure lemmas -/

theorem formatDurationNat_eq_spec (s : Nat) :
    formatDurationNat s = joinSpace ((specGreedyParts s).map renderPart) := by
  have d1 : SECONDS_PER_DAY = 86400 := rfl
  have d2 : SECONDS_PER_HOUR = 3600 := rfl
  have d3 : SECONDS_PER_MINUTE = 60 := rfl
  have m1 : s % 86400 % 3600 = s % 3600 := Nat.mod_mod_of_dvd s (by norm_num)
  have m2 : s % 3600 % 60 = s % 60 := Nat.mod_mod_of_dvd s (by norm_num)
  have e1 : (s / 86400 ≠ 0) ↔ 86400 ≤ s := by omega
  have e2 : (s % 86400 / 3600 ≠ 0) ↔ 3600 ≤ s % 86400 := by omega
  have e3 : (s % 3600 / 60 ≠ 0) ↔ 60 ≤ s % 3600 := by omega
  simp only [formatDurationNat, specGreedyParts, d1, d2, d3, e1, e2, e3]
  by_cases h1 : 86400 ≤ s
  · simp only [if_pos h1, m1]
    have hx : ¬ s < 60 := by omega
    by_cases h2 : 3600 ≤ s % 86400
    · simp only [if_pos h2, m2]
      by_cases h3 : 60 ≤ s % 3600
      · simp only [if_pos h3]
        by_cases h4 : s % 60 = 0 <;> simp [h4, hx, renderPart]
      · simp only [if_neg h3]
        by_cases h4 : s % 60 = 0 <;>
          simp [h4, hx, renderPart, show s % 3600 = s % 60 by omega]
    · simp only [if_neg h2]
      have r2 : s % 86400 = s % 3600 := by omega
      simp only [r2, m2]
      by_cases h3 : 60 ≤ s % 3600
      · simp only [if_pos h3]
        by_cases h4 : s % 60 = 0 <;> simp [h4, hx, renderPart]
      · simp only [if_neg h3]
        by_cases h4 : s % 60 = 0 <;>
          simp [h4, hx, renderPart, show s % 3600 = s % 60 by omega]
  · simp only [if_neg h1]
    have r1 : s % 86400 = s := Nat.mod_eq_of_lt (by omega)
    simp only [r1]
    by_cases h2 : 3600 ≤ s
    · simp only [if_pos h2, m2]
      have hx : ¬ s < 60 := by omega
      by_cases h3 : 60 ≤ s % 3600
      · simp only [if_pos h3]
        by_cases h4 : s % 60 = 0 <;> simp [h4, hx, renderPart]
      · simp only [if_neg h3]
        by_cases h4 : s % 60 = 0 <;>
          simp [h4, hx, renderPart, show s % 3600 = s % 60 by omega]
    · simp only [if_neg h2]
      have r2 : s % 3600 = s := Nat.mod_eq_of_lt (by omega)
      simp only [r2]
      by_cases h3 : 60 ≤ s
      · simp only [if_pos h3]
        have hx : ¬ s < 60 := by omega
        by_cases h4 : s % 60 = 0 <;> simp [h4, hx, renderPart]
      · simp only [if_neg h3]
        have r3 : s % 60 = s := Nat.mod_eq_of_lt (by omega)
        have hx : s < 60 := by omega
        simp [r3, hx, renderPart]

theorem sumVal_specGreedyParts (s : Nat) : sumVal (specGreedyParts s) = s := by
  by_cases h1 : s / 86400 = 0 <;> by_cases h2 : s % 86400 / 3600 = 0 <;>
    by_cases h3 : s % 3600 / 60 = 0 <;> by_cases h4 : s % 60 = 0 <;>
    by_cases h5 : s < 60 <;>
    simp [specGreedyParts, SECONDS_PER_DAY, SECONDS_PER_HOUR, SECONDS_PER_MINUTE,
      h1, h2, h3, h4, h5, sumVal, partVal, suffixVal,
      show ('s' : Char) ≠ 'd' from by decide, show ('s' : Char) ≠ 'h' from by decide,
      show ('s' : Char) ≠ 'm' from by decide, show ('m' : Char) ≠ 'd' from by decide,
      show ('m' : Char) ≠ 'h' from by decide, show ('h' : Char) ≠ 'd' from by decide] <;>
    omega

theorem specGreedyParts_ne_nil (s : Nat) : specGreedyParts s ≠ [] := by
  by_cases h1 : s / 86400 = 0 <;> by_cases h2 : s % 86400 / 3600 = 0 <;>
    by_cases h3 : s % 3600 / 60 = 0 <;> by_cases h4 : s % 60 = 0 <;>
    by_cases h5 : s < 60 <;>
    simp [specGreedyParts, SECONDS_PER_DAY, SECONDS_PER_HOUR, SECONDS_PER_MINUTE,
      h1, h2, h3, h4, h5] <;>
    omega

theorem specGreedyParts_suffixes (s : Nat) :
    ∀ p ∈ specGreedyParts s, isSuffixChar p.2 = true := by
  intro p hp
  simp only [specGreedyParts, List.mem_append] at hp
  rcases hp with ((hp | hp) | hp) | hp <;> [skip; skip; skip; skip] <;>
  · split at hp <;> simp_all <;> subst hp <;> decide

theorem parse_render (ps : List (Nat × Char)) (hne : ps ≠ [])
    (hsuf : ∀ p ∈ ps, isSuffixChar p.2 = true) :
    parseDurationChars (joinSpace (ps.map renderPart)) = .ok (sumVal ps) := by
  have hstrip : pyStrip (joinSpace (ps.map renderPart)) = joinSpace (ps.map renderPart) := by
    apply pyStrip_eq_self
    · intro c hc
      obtain ⟨c2, hc2, hd⟩ := joinSpace_render_head hne
      rw [hc] at hc2
      cases hc2
      exact digit_not_space hd
    · intro c hc
      obtain ⟨p, hp, hlast⟩ := joinSpace_render_last hne
      rw [hc] at hlast
      cases hlast
      exact suffix_not_space (hsuf p hp)
  unfold parseDurationChars
  simp only [hstrip]
  rw [if_neg (joinSpace_render_ne_nil hne)]
  rw [runChars_joinSpace_render ps 0 hne hsuf]
  simp

theorem parse_duration_eq (str : String) : parse_duration str = parseDurationChars str.data :=
  rfl

theorem string_mk_data (l : List Char) : (String.mk l).data = l := rfl

/-- C5: for every integer s at least 0, parsing the formatted duration
string gives back exactly s — the duration codec round-trip law,
parse_duration of format_duration of s is s. -/
theorem duration_roundtrip (s : Int) (hs : 0 ≤ s) (str : String)
    (hf : format_duration s = .ok str) : parse_duration str = .ok s.toNat := by
  have h1 : format_duration s = .ok (String.mk (formatDurationNat s.toNat)) := by
    unfold format_duration
    rw [if_neg (by omega : ¬ s < 0)]
  rw [h1] at hf
  have hstr : str = String.mk (formatDurationNat s.toNat) := (Except.ok.inj hf).symm
  subst hstr
  rw [parse_duration_eq, string_mk_data, formatDurationNat_eq_spec]
  rw [parse_render _ (specGreedyParts_ne_nil s.toNat) (specGreedyParts_suffixes s.toNat)]
  rw [sumVal_specGreedyParts]

/-- Witness for C5 at s = 90061. -/
theorem duration_roundtrip_witness :
    (0 : Int) ≤ 90061 ∧ format_duration 90061 = .ok "1d 1h 1m 1s" ∧
      parse_duration "1d 1h 1m 1s" = .ok ((90061 : Int).toNat) :=
  ⟨by norm_num, by rfl, duration_roundtrip 90061 (by norm_num) "1d 1h 1m 1s" (by rfl)⟩

/-- C10: format_duration emits the greedy day/hour/minute/second
decomposition in descending order, space separated, only nonzero units
except that totals below one minute always emit the seconds component;
the four spec examples hold and negative input fails. -/
theorem format_duration_greedy :
    (∀ s : Nat, formatDurationNat s = joinSpace ((specGreedyParts s).map renderPart)) ∧
    (∀ s : Int, s < 0 → format_duration s = .error "Duration cannot be negative") ∧
    format_duration 0 = .ok "0s" ∧ format_duration 90 = .ok "1m 30s" ∧
    format_duration 3661 = .ok "1h 1m 1s" ∧ format_duration 90061 = .ok "1d 1h 1m 1s" := by
  refine ⟨formatDurationNat_eq_spec, ?_, by rfl, by rfl, by rfl, by rfl⟩
  intro s h
  unfold format_duration
  rw [if_pos h]

/-- Witness for C10: the greedy-parts equation at 90 and the negative
failure at minus 1. -/
theorem format_duration_greedy_witness :
    formatDurationNat 90 = joinSpace ((specGreedyParts 90).map renderPart) ∧
    format_duration (-1) = .error "Duration cannot be negative" :=
  ⟨format_duration_greedy.1 90, format_duration_greedy.2.1 (-1) (by decide)⟩

/-! ### Parse failure characterization -/

/-- Did the parse run fail, or end with an unterminated digit token. -/
def failAfter : Except String (Nat × Option Nat) → Bool
  | .error _ => true
  | .ok (_, some _) => true
  | .ok (_, none) => false

/-- Failure of the character loop as a recursion on the remaining input;
the boolean argument records whether the digit token is nonempty. -/
def badFrom : Bool → List Char → Bool
  | tok, [] => tok
  | tok, c :: t =>
    if pyIsDigit c then badFrom true t
    else if pyIsSpace c then (if tok then true else badFrom false t)
    else if tok then (if isSuffixChar c then badFrom false t else true)
    else true

/-- The positional failure conditions on the stripped input: digit
followed by unknown suffix, digit followed by whitespace, trailing digit,
or a non-digit non-space character not immediately preceded by a digit. -/
def stripFailCond (t : List Char) : Bool :=
  adjAny (fun a b => pyIsDigit a && isOtherChar b) t ||
  adjAny (fun a b => pyIsDigit a && pyIsSpace b) t ||
  (t.getLast?.map pyIsDigit).getD false ||
  ((t.head?.map ndns).getD false ||
    adjAny (fun a b => !pyIsDigit a && ndns b) t)

theorem ndns_false_of_digit {c : Char} (h : pyIsDigit c = true) : ndns c = false := by
  simp [ndns, h]

theorem ndns_false_of_space {c : Char} (h : pyIsSpace c = true) : ndns c = false := by
  simp [ndns, h]

theorem ndns_true_of {c : Char} (hd : pyIsDigit c = false) (hs : pyIsSpace c = false) :
    ndns c = true := by
  simp [ndns, hd, hs]

theorem failAfter_runChars (t : List Char) :
    ∀ (n : Nat) (token : Option Nat),
      failAfter (runChars t (n, token)) = badFrom token.isSome t := by
  induction t with
  | nil => intro n token; cases token <;> rfl
  | cons c t ih =>
    intro n token
    by_cases hd : pyIsDigit c = true
    · rw [show runChars (c :: t) (n, token) =
          runChars t (n, some (10 * token.getD 0 + (c.toNat - 48))) from by
        simp [runChars, stepChar_digit _ hd]]
      rw [ih]
      cases token <;> simp [badFrom, hd]
    · have hd' : pyIsDigit c = false := by simpa using hd
      by_cases hs : pyIsSpace c = true
      · cases token with
        | none =>
          rw [show runChars (c :: t) (n, none) = runChars t (n, none) from by
            simp [runChars, stepChar, hd', hs]]
          rw [ih]
          simp [badFrom, hd', hs]
        | some v =>
          rw [show runChars (c :: t) (n, some v) =
              .error "Suffix missing for duration segment" from by
            simp [runChars, stepChar, hd', hs]]
          simp [failAfter, badFrom, hd', hs]
      · have hs' : pyIsSpace c = false := by simpa using hs
        cases token with
        | none =>
          rw [show runChars (c :: t) (n, none) = .error "Missing value before suffix" from by
            simp [runChars, stepChar, hd', hs']]
          simp [failAfter, badFrom, hd', hs']
        | some v =>
          by_cases hsf : isSuffixChar c = true
          · rw [show runChars (c :: t) (n, some v) =
                runChars t (n + v * suffixVal c, none) from by
              simp [runChars, stepChar_suffix n v hsf]]
            rw [ih]
            simp [badFrom, hd', hs', hsf]
          · have hsf' : isSuffixChar c = false := by simpa using hsf
            obtain ⟨h1, h2, h3, h4⟩ := not_suffix_ne hsf'
            rw [show runChars (c :: t) (n, some v) = .error "Unknown suffix in duration" from by
              simp [runChars, stepChar, hd', hs', h1, h2, h3, h4]]
            simp [failAfter, badFrom, hd', hs', hsf']

theorem adjAny_nil (p : Char → Char → Bool) : adjAny p [] = false := rfl

theorem adjAny_single (p : Char → Char → Bool) (a : Char) : adjAny p [a] = false := rfl

theorem adjAny_cons2 (p : Char → Char → Bool) (a b : Char) (t : List Char) :
    adjAny p (a :: b :: t) = (p a b || adjAny p (b :: t)) := rfl

theorem getLast?_cons_cons (a b : Char) (t : List Char) :
    (a :: b :: t).getLast? = (b :: t).getLast? :=
  List.getLast?_append_of_ne_nil [a] (by simp)

theorem stripFailCond_cons_space {b : Char} (hs : pyIsSpace b = true)
    (hd : pyIsDigit b = false) (t : List Char) :
    stripFailCond (b :: t) = stripFailCond t := by
  have hn : ndns b = false := ndns_false_of_space hs
  cases t with
  | nil => simp [stripFailCond, adjAny_single, adjAny_nil, hn, hd, hs]
  | cons x t' =>
    simp only [stripFailCond, adjAny_cons2, getLast?_cons_cons]
    simp [hn, hd, hs]

theorem stripFailCond_cons_digit_digit {c b : Char} (hc : pyIsDigit c = true)
    (hb : pyIsDigit b = true) (t : List Char) :
    stripFailCond (c :: b :: t) = stripFailCond (b :: t) := by
  simp only [stripFailCond, adjAny_cons2, getLast?_cons_cons]
  simp [isOtherChar, ndns_false_of_digit hc, ndns_false_of_digit hb, hc, hb,
    digit_not_space hb]

theorem stripFailCond_cons_digit_suffix {c b : Char} (hc : pyIsDigit c = true)
    (hb : isSuffixChar b = true) (t : List Char) :
    stripFailCond (c :: b :: t) = stripFailCond t := by
  have hbd : pyIsDigit b = false := suffix_not_digit hb
  have hbs : pyIsSpace b = false := suffix_not_space hb
  cases t with
  | nil =>
    simp [stripFailCond, adjAny_cons2, adjAny_single, adjAny_nil, getLast?_cons_cons,
      isOtherChar, hb, hbd, hbs, hc, ndns_false_of_digit hc]
  | cons x t' =>
    simp only [stripFailCond, adjAny_cons2, getLast?_cons_cons]
    simp [isOtherChar, hb, hbd, hbs, hc, ndns_false_of_digit hc,
      ndns_true_of hbd hbs]

theorem badFrom_eq_stripFailCond (t : List Char) :
    (badFrom false t = stripFailCond t) ∧
      (∀ c : Char, pyIsDigit c = true → badFrom true t = stripFailCond (c :: t)) := by
  induction t with
  | nil =>
    constructor
    · rfl
    · intro c hc
      simp [badFrom, stripFailCond, adjAny_single, ndns_false_of_digit hc, hc]
  | cons b t ih =>
    constructor
    · by_cases hdb : pyIsDigit b = true
      · rw [show badFrom false (b :: t) = badFrom true t from by simp [badFrom, hdb]]
        exact ih.2 b hdb
      · have hdb' : pyIsDigit b = false := by simpa using hdb
        by_cases hsb : pyIsSpace b = true
        · rw [show badFrom false (b :: t) = badFrom false t from by
            simp [badFrom, hdb', hsb]]
          rw [ih.1, stripFailCond_cons_space hsb hdb']
        · have hsb' : pyIsSpace b = false := by simpa using hsb
          rw [show badFrom false (b :: t) = true from by simp [badFrom, hdb', hsb']]
          have hn : ndns b = true := ndns_true_of hdb' hsb'
          simp [stripFailCond, hn]
    · intro c hc
      by_cases hdb : pyIsDigit b = true
      · rw [show badFrom true (b :: t) = badFrom true t from by simp [badFrom, hdb]]
        rw [ih.2 b hdb, stripFailCond_cons_digit_digit hc hdb]
      · have hdb' : pyIsDigit b = false := by simpa using hdb
        by_cases hsb : pyIsSpace b = true
        · rw [show badFrom true (b :: t) = true from by simp [badFrom, hdb', hsb]]
          simp [stripFailCond, adjAny_cons2, hc, hsb]
        · have hsb' : pyIsSpace b = false := by simpa using hsb
          by_cases hfb : isSuffixChar b = true
          · rw [show badFrom true (b :: t) = badFrom false t from by
              simp [badFrom, hdb', hsb', hfb]]
            rw [ih.1, stripFailCond_cons_digit_suffix hc hfb]
          · have hfb' : isSuffixChar b = false := by simpa using hfb
            rw [show badFrom true (b :: t) = true from by simp [badFrom, hdb', hsb', hfb']]
            have hob : isOtherChar b = true := by
              simp [isOtherChar, ndns_true_of hdb' hsb', hfb']
            simp [stripFailCond, adjAny_cons2, hc, hob]

theorem amendedFailCond_eq (cs : List Char) :
    amendedFailCond cs = ((pyStrip cs).isEmpty || stripFailCond (pyStrip cs)) := by
  simp only [amendedFailCond, claimFailCond, condMissingValue, condEmptyOrWhite,
    condDigitThenUnknown, condDigitThenSpace, condTrailingDigits, stripFailCond,
    Bool.or_assoc]

theorem parseDurationChars_isOk (cs : List Char) :
    exceptIsOk (parseDurationChars cs) = !amendedFailCond cs := by
  rw [amendedFailCond_eq]
  have hfa := failAfter_runChars (pyStrip cs) 0 none
  rw [show (none : Option Nat).isSome = false from rfl] at hfa
  rw [(badFrom_eq_stripFailCond (pyStrip cs)).1] at hfa
  simp only [parseDurationChars]
  by_cases he : pyStrip cs = []
  · rw [if_pos he, he]
    simp [exceptIsOk]
  · rw [if_neg he]
    rw [show (pyStrip cs).isEmpty = false from by simpa [List.isEmpty_iff] using he]
    cases hrun : runChars (pyStrip cs) (0, none) with
    | error e =>
      rw [hrun] at hfa
      simp only [failAfter] at hfa
      simp [exceptIsOk, ← hfa]
    | ok st =>
      obtain ⟨total, token⟩ := st
      cases token with
      | none =>
        rw [hrun] at hfa
        simp only [failAfter] at hfa
        simp [exceptIsOk, ← hfa]
      | some v =>
        rw [hrun] at hfa
        simp only [failAfter] at hfa
        simp [exceptIsOk, ← hfa]

/-- C9 (amended): parse_duration fails with a parse error exactly when the
input is empty or whitespace-only, a digit run is followed by an
unrecognized suffix, whitespace interrupts a digit run before its suffix,
trailing digits have no suffix, or — the condition the original claim
omits — a suffix-like character has no digit run immediately before it;
otherwise it returns the summed token values (tokens in any order,
duplicates summed), e.g. parse_duration of "2h 30m" is 9000. -/
theorem parse_duration_characterization :
    (∀ s : String, (∃ e, parse_duration s = .error e) ↔ amendedFailCond s.data = true) ∧
    (∀ ps : List (Nat × Char), ps ≠ [] → (∀ p ∈ ps, isSuffixChar p.2 = true) →
      parseDurationChars (joinSpace (ps.map renderPart)) = .ok (sumVal ps)) ∧
    parse_duration "2h 30m" = .ok 9000 := by
  refine ⟨?_, parse_render, by rfl⟩
  intro s
  have h := parseDurationChars_isOk s.data
  rw [parse_duration_eq]
  constructor
  · rintro ⟨e, he⟩
    rw [he] at h
    simpa [exceptIsOk] using h.symm
  · intro hc
    rw [hc] at h
    cases hp : parseDurationChars s.data with
    | error e => exact ⟨e, rfl⟩
    | ok v =>
      rw [hp] at h
      simp [exceptIsOk] at h

/-- C9 counterexample: the input "h" satisfies none of the four failure
conditions listed by the claim, yet parse_duration rejects it (a suffix
with no value before it), so the claim's "exactly when" is false at "h". -/
theorem parse_duration_claim_counterexample :
    claimFailCond "h".data = false ∧
      parse_duration "h" = .error "Missing value before suffix" :=
  ⟨by decide, by rfl⟩

/-- Witness for C9 at the inputs "5 m" and 2h 30m. -/
theorem parse_duration_characterization_witness :
    ((∃ e, parse_duration "5 m" = .error e) ↔ amendedFailCond "5 m".data = true) ∧
      parseDurationChars (joinSpace ([(2, 'h'), (30, 'm')].map renderPart)) =
        .ok (sumVal [(2, 'h'), (30, 'm')]) :=
  ⟨parse_duration_characterization.1 "5 m",
   parse_duration_characterization.2.1 [(2, 'h'), (30, 'm')] (by simp) (by decide)⟩

/-! ### Coordinator claims -/

/-- C1: when a worklog submission attempt fails (for any failure the
client reports), the failure handler appends exactly one pending entry
whose issue key, seconds and comment match the attempted submission, and
the timer registry — hence the originating timer's accumulated seconds —
is unchanged. -/
theorem failed_submission_enqueues_once (st : AppState) (i : Nat) (worklog : Worklog)
    (post : Worklog → Except String String) (confirm : Bool) (now : Int) (e : String)
    (hfail : post worklog = .error e) :
    post_worklog st i worklog false post confirm now =
      { st with pending := st.pending ++
          [{ issue_key := worklog.issue_key, seconds := worklog.seconds,
             comment := worklog.comment, created_at := now }] } ∧
    (post_worklog st i worklog false post confirm now).timers = st.timers := by
  unfold post_worklog
  rw [if_neg (by simp)]
  rw [hfail]
  exact ⟨rfl, rfl⟩

/-- Witness for C1: a network failure on a one-timer state. -/
theorem failed_submission_enqueues_once_witness :
    (post_worklog ⟨[{ issue_key := "AB-1", seconds := 120 }], []⟩ 0
        { issue_key := "AB-1", seconds := 120, comment := "c", started := 5,
          adjust_estimate := "auto", remaining_estimate := none } false
        (fun _ => .error "network down") true 7).timers =
      [{ issue_key := "AB-1", seconds := 120 }] :=
  (failed_submission_enqueues_once _ 0 _ _ true 7 "network down" rfl).2

/-- C3 counterexample: deferring a submission does not reset the timer:
with a timer holding 100 accumulated seconds, after the defer path of
post_worklog the timer still holds 100 seconds, not zero as the claim
asserts. -/
theorem defer_counterexample :
    (post_worklog ⟨[{ issue_key := "AB-1", seconds := 100 }], []⟩ 0
        { issue_key := "AB-1", seconds := 100, comment := "", started := 5,
          adjust_estimate := "auto", remaining_estimate := none } true
        (fun _ => .ok "1") true 7).timers.map TimerState.seconds = [100] ∧
    (100 : Int) ≠ 0 :=
  ⟨rfl, by decide⟩

/-- C3 (amended): when the user chooses to defer, the draft is enqueued
into the pending queue and the operation completes without any network
call (the result does not depend on the client), but the originating
timer is left unchanged — it is not reset. -/
theorem defer_enqueues_without_reset (st : AppState) (i : Nat) (worklog : Worklog)
    (post post2 : Worklog → Except String String) (confirm confirm2 : Bool) (now : Int) :
    post_worklog st i worklog true post confirm now = save_worklog_for_later st worklog now ∧
    (post_worklog st i worklog true post confirm now).pending =
      st.pending ++ [{ issue_key := worklog.issue_key, seconds := worklog.seconds,
                       comment := worklog.comment, created_at := now }] ∧
    (post_worklog st i worklog true post confirm now).timers = st.timers ∧
    post_worklog st i worklog true post confirm now =
      post_worklog st i worklog true post2 confirm2 now :=
  ⟨rfl, rfl, rfl, rfl⟩

/-- C4 counterexample: with the wall clock 10 seconds behind the run
start, current_seconds returns 90, not the clamped value 100 the claim
demands. -/
theorem current_seconds_counterexample :
    current_seconds
        ({ issue_key := "AB-1", seconds := 100, running := true,
           last_started := some 50 } : TimerState) 40 = 90 ∧
      (90 : Int) ≠ 100 + max 0 (40 - 50) :=
  ⟨by decide, by decide⟩

/-- C4 (amended): for a running timer with a truthy start stamp,
current_seconds returns accumulated seconds plus the raw difference
now - runStartedAt, with no clamping: a backward clock step is
subtracted. -/
theorem current_seconds_no_clamp (s : TimerState) (now t : Int) (h1 : s.running = true)
    (h2 : s.last_started = some t) (h3 : t ≠ 0) :
    current_seconds s now = s.seconds + (now - t) := by
  have htr : lastStartedTruthy s.last_started = true := by
    rw [h2]; simp [lastStartedTruthy, h3]
  unfold current_seconds
  rw [h1, htr, h2]
  simp [lastStartedVal]

/-- Witness for C4 at a backward clock step. -/
theorem current_seconds_no_clamp_witness :
    current_seconds
        ({ issue_key := "AB-1", seconds := 100, running := true,
           last_started := some 50 } : TimerState) 40 = 100 + (40 - 50) :=
  current_seconds_no_clamp _ 40 50 rfl rfl (by decide)

theorem postAllLoop_isOk (post : Worklog → Except String String) (now : Int) :
    ∀ ws : List PendingWorklog,
      exceptIsOk (postAllLoop post now ws) =
        ws.all fun w => exceptIsOk (post (pendingPayload w now)) := by
  intro ws
  induction ws with
  | nil => rfl
  | cons w ws ih =>
    simp only [postAllLoop, List.all_cons]
    cases post (pendingPayload w now) with
    | error e => simp [exceptIsOk]
    | ok id =>
      cases h : postAllLoop post now ws with
      | error e =>
        rw [h] at ih
        simp only [exceptIsOk] at ih ⊢
        simp [← ih]
      | ok ids =>
        rw [h] at ih
        simp only [exceptIsOk] at ih ⊢
        simp [← ih]

/-- C2: batch posting of all pending worklogs is all-or-nothing at the
queue level: if posting any snapshot entry fails, the whole state — in
particular the queue with all its entries — is unchanged; only when every
entry posts successfully is the queue cleared. -/
theorem batch_post_all_or_nothing (st : AppState) (post : Worklog → Except String String)
    (now : Int) (hne : st.pending ≠ []) :
    ((∃ w ∈ st.pending, ∃ e, post (pendingPayload w now) = .error e) →
      post_pending_worklogs st true post now = st) ∧
    ((∀ w ∈ st.pending, ∃ id, post (pendingPayload w now) = .ok id) →
      (post_pending_worklogs st true post now).pending = [] ∧
      (post_pending_worklogs st true post now).timers = st.timers) := by
  unfold post_pending_worklogs
  rw [if_neg hne]
  simp only [Bool.not_true, Bool.false_eq_true, if_false]
  constructor
  · rintro ⟨w, hw, e, he⟩
    have hall : exceptIsOk (postAllLoop post now st.pending) = false := by
      rw [postAllLoop_isOk]
      refine List.all_eq_false.mpr ⟨w, hw, ?_⟩
      simp [he, exceptIsOk]
    cases hp : postAllLoop post now st.pending with
    | error e2 => rfl
    | ok ids =>
      rw [hp] at hall
      simp [exceptIsOk] at hall
  · intro hok
    have hall : exceptIsOk (postAllLoop post now st.pending) = true := by
      rw [postAllLoop_isOk]
      refine List.all_eq_true.mpr ?_
      intro w hw
      obtain ⟨id, hid⟩ := hok w hw
      simp [hid, exceptIsOk]
    cases hp : postAllLoop post now st.pending with
    | error e2 =>
      rw [hp] at hall
      simp [exceptIsOk] at hall
    | ok ids => exact ⟨rfl, rfl⟩

/-- Witness for C2: a two-entry queue where the second post fails leaves
the state unchanged. -/
theorem batch_post_all_or_nothing_witness :
    post_pending_worklogs
        ⟨[], [{ issue_key := "AB-1", seconds := 60, comment := "", created_at := 0 },
              { issue_key := "AB-2", seconds := 90, comment := "", created_at := 1 }]⟩ true
        (fun w => if w.issue_key = "AB-2" then .error "boom" else .ok "1") 5 =
      ⟨[], [{ issue_key := "AB-1", seconds := 60, comment := "", created_at := 0 },
            { issue_key := "AB-2", seconds := 90, comment := "", created_at := 1 }]⟩ :=
  (batch_post_all_or_nothing _ _ 5 (by simp)).1
    ⟨{ issue_key := "AB-2", seconds := 90, comment := "", created_at := 1 }, by simp,
     "boom", by rfl⟩

/-- C6: restoring a persisted running timer with a wall-clock gap of
G ≥ 0 seconds since the persisted start stamp credits exactly G seconds,
restamps last_started to the load instant, keeps the timer running, and
current_seconds immediately after the restore equals the persisted
accumulated seconds plus G; _load_timers applies this restore to every
loaded state. -/
theorem restore_credits_gap (s : TimerState) (t G : Int) (h1 : s.running = true)
    (h2 : s.last_started = some t) (h3 : t ≠ 0) (hG : 0 ≤ G) :
    (restore_timer s (t + G)).seconds = s.seconds + G ∧
    (restore_timer s (t + G)).running = true ∧
    (restore_timer s (t + G)).last_started = some (t + G) ∧
    current_seconds (restore_timer s (t + G)) (t + G) = s.seconds + G ∧
    ∀ states : List TimerState, s ∈ states →
      restore_timer s (t + G) ∈ _load_timers states (t + G) := by
  have htr : lastStartedTruthy s.last_started = true := by
    rw [h2]; simp [lastStartedTruthy, h3]
  have hre : restore_timer s (t + G) =
      { s with seconds := s.seconds + G, last_started := some (t + G) } := by
    unfold restore_timer
    rw [h1, htr, h2]
    simp only [Bool.and_self, if_true]
    rw [show lastStartedVal (some t) = t from rfl]
    rw [show t + G - t = G from by ring, max_eq_right hG]
  refine ⟨by rw [hre], by rw [hre]; exact h1, by rw [hre], ?_, ?_⟩
  · rw [hre]
    unfold current_seconds
    by_cases hz : t + G = 0
    · simp [lastStartedTruthy, hz, h1]
    · simp [lastStartedTruthy, lastStartedVal, hz, h1]
  · intro states hs
    unfold _load_timers
    rw [if_neg (List.ne_nil_of_mem hs)]
    exact List.mem_map_of_mem _ hs

/-- Witness for C6: a timer with 40 banked seconds restored after a gap
of 25 seconds shows 65 seconds and is still running. -/
theorem restore_credits_gap_witness :
    (restore_timer
        ({ issue_key := "AB-1", seconds := 40, running := true,
           last_started := some 1000 } : TimerState) (1000 + 25)).seconds = 40 + 25 ∧
    (restore_timer
        ({ issue_key := "AB-1", seconds := 40, running := true,
           last_started := some 1000 } : TimerState) (1000 + 25)).running = true := by
  have h := restore_credits_gap
    ({ issue_key := "AB-1", seconds := 40, running := true,
       last_started := some 1000 } : TimerState) 1000 25 rfl rfl (by decide) (by decide)
  exact ⟨h.1, h.2.1⟩

theorem timer_started_aux_get (now : Int) (i : Nat) (ts : List TimerState) :
    ∀ j k : Nat, (timer_started_aux now i j ts)[k]? =
      (ts[k]?).map fun s => if j + k ≠ i ∧ s.running then pause_timer s now else s := by
  induction ts with
  | nil => intro j k; simp [timer_started_aux]
  | cons s rest ih =>
    intro j k
    cases k with
    | zero => simp [timer_started_aux]
    | succ k' =>
      simp only [timer_started_aux, List.getElem?_cons_succ]
      rw [ih (j + 1) k', show j + 1 + k' = j + (k' + 1) from by omega]

theorem pause_timer_stops (u : TimerState) (now : Int) (h : u.running = true) :
    (pause_timer u now).running = false := by
  unfold pause_timer
  rw [h]
  simp

/-- C7: starting the timer at index i (with a nonempty issue key) leaves
that timer running with the start instant stamped, pauses every other
running timer exactly once — its new state is pause_timer applied at the
start instant — leaves idle timers untouched, and afterwards no timer
other than i is running (single-running-timer policy, last start wins). -/
theorem start_pauses_others (timers : List TimerState) (i : Nat) (now : Int)
    (s : TimerState) (hget : timers[i]? = some s) (hkey : s.issue_key ≠ "") :
    (start_timer timers i now)[i]? = some (start_timer_row s now) ∧
    (start_timer_row s now).running = true ∧
    (∀ j, j ≠ i →
      (start_timer timers i now)[j]? =
        (timers[j]?).map fun u => if u.running then pause_timer u now else u) ∧
    (∀ j u, j ≠ i → timers[j]? = some u → u.running = true →
      (start_timer timers i now)[j]? = some (pause_timer u now)) ∧
    (∀ j u, j ≠ i → (start_timer timers i now)[j]? = some u → u.running = false) := by
  have hi : i < timers.length := by
    by_contra hcon
    rw [List.getElem?_eq_none (by omega)] at hget
    exact Option.noConfusion hget
  have hstart : start_timer timers i now =
      timer_started (timers.set i (start_timer_row s now)) i now := by
    unfold start_timer
    rw [hget]
    show (if s.issue_key = "" then timers
      else timer_started (timers.set i (start_timer_row s now)) i now) = _
    rw [if_neg hkey]
  have hmain : ∀ k, (start_timer timers i now)[k]? =
      ((timers.set i (start_timer_row s now))[k]?).map
        fun u => if k ≠ i ∧ u.running then pause_timer u now else u := by
    intro k
    rw [hstart]
    show (timer_started_aux now i 0 _)[k]? = _
    rw [timer_started_aux_get]
    simp only [Nat.zero_add]
  have hothers : ∀ j, j ≠ i →
      (start_timer timers i now)[j]? =
        (timers[j]?).map fun u => if u.running then pause_timer u now else u := by
    intro j hj
    rw [hmain j, List.getElem?_set_ne (Ne.symm hj)]
    cases timers[j]? with
    | none => rfl
    | some u => simp [hj]
  refine ⟨?_, rfl, hothers, ?_, ?_⟩
  · rw [hmain i, List.getElem?_set_eq_of_lt _ hi]
    simp
  · intro j u hj hju hur
    rw [hothers j hj, hju]
    simp [hur]
  · intro j u hj hres
    rw [hothers j hj] at hres
    cases hju : timers[j]? with
    | none => rw [hju] at hres; exact Option.noConfusion hres
    | some v =>
      rw [hju] at hres
      rw [show Option.map (fun u => if u.running = true then pause_timer u now else u)
          (some v) = some (if v.running = true then pause_timer v now else v) from rfl] at hres
      by_cases hv : v.running = true
      · rw [if_pos hv] at hres
        rw [← Option.some.inj hres]
        exact pause_timer_stops v now hv
      · rw [if_neg hv] at hres
        rw [← Option.some.inj hres]
        simpa using hv

/-- Witness for C7: starting timer 1 pauses the running timer 0. -/
theorem start_pauses_others_witness :
    (start_timer
        [({ issue_key := "AB-1", seconds := 10, running := true,
            last_started := some 100 } : TimerState),
         ({ issue_key := "AB-2", seconds := 0 } : TimerState)] 1 130)[0]? =
      some (pause_timer
        ({ issue_key := "AB-1", seconds := 10, running := true,
           last_started := some 100 } : TimerState) 130) :=
  (start_pauses_others _ 1 130 ({ issue_key := "AB-2", seconds := 0 } : TimerState)
      rfl (by decide)).2.2.2.1 0
    ({ issue_key := "AB-1", seconds := 10, running := true,
       last_started := some 100 } : TimerState) (by decide) rfl rfl

theorem keepNotIn_all_lt {α : Type} (l : List α) :
    ∀ (j : Nat) (S : List Nat), (∀ x ∈ S, x < j) → keepNotIn S j l = l := by
  induction l with
  | nil => intro j S _; rfl
  | cons a l ih =>
    intro j S h
    simp only [keepNotIn]
    rw [if_neg (fun hj => absurd (h j hj) (by omega))]
    rw [ih (j + 1) S (fun x hx => by have := h x hx; omega)]

theorem keepNotIn_eraseIdx {α : Type} (l : List α) :
    ∀ (i j : Nat) (S : List Nat), (∀ x ∈ S, x < j + i) → i < l.length →
      keepNotIn S j (l.eraseIdx i) = keepNotIn ((j + i) :: S) j l := by
  induction l with
  | nil => intro i j S _ hlen; simp at hlen
  | cons a l ih =>
    intro i j S h hlen
    cases i with
    | zero =>
      have hS : ∀ x ∈ S, x < j := by simpa using h
      simp only [List.eraseIdx_cons_zero, Nat.add_zero]
      rw [keepNotIn_all_lt l j S hS]
      simp only [keepNotIn]
      rw [if_pos (List.mem_cons_self _ _)]
      rw [keepNotIn_all_lt l (j + 1) (j :: S) ?_]
      intro x hx
      rcases List.mem_cons.mp hx with hx | hx
      · omega
      · have := hS x hx; omega
    | succ i' =>
      have hIH := ih i' (j + 1) S (fun x hx => by have := h x hx; omega)
        (by simpa using hlen)
      have hne : j ≠ j + (i' + 1) := by omega
      simp only [List.eraseIdx_cons_succ, keepNotIn]
      by_cases hj : j ∈ S
      · rw [if_pos hj, if_pos (List.mem_cons_of_mem _ hj), hIH,
          show j + 1 + i' = j + (i' + 1) from by omega]
      · rw [if_neg hj, if_neg ?_, hIH, show j + 1 + i' = j + (i' + 1) from by omega]
        intro hc
        rcases List.mem_cons.mp hc with hc | hc
        · exact hne hc
        · exact hj hc

theorem keepNotIn_congr {α : Type} (l : List α) :
    ∀ (j : Nat) (S S2 : List Nat), (∀ n, n ∈ S ↔ n ∈ S2) →
      keepNotIn S j l = keepNotIn S2 j l := by
  induction l with
  | nil => intro j S S2 _; rfl
  | cons a l ih =>
    intro j S S2 h
    simp only [keepNotIn]
    by_cases hj : j ∈ S
    · rw [if_pos hj, if_pos ((h j).mp hj), ih (j + 1) S S2 h]
    · rw [if_neg hj, if_neg (fun hc => hj ((h j).mpr hc)), ih (j + 1) S S2 h]

theorem foldl_eraseIdx_keepNotIn {α : Type} :
    ∀ (D : List Nat) (l : List α), List.Pairwise (· > ·) D → (∀ d ∈ D, d < l.length) →
      D.foldl (fun ws idx => if idx < ws.length then ws.eraseIdx idx else ws) l =
        keepNotIn D 0 l := by
  intro D
  induction D with
  | nil =>
    intro l _ _
    rw [List.foldl_nil]
    exact (keepNotIn_all_lt l 0 [] (by simp)).symm
  | cons d D ih =>
    intro l hpw hbound
    rw [List.foldl_cons]
    have hd : d < l.length := hbound d (List.mem_cons_self _ _)
    rw [if_pos hd]
    have hgt : ∀ x ∈ D, d > x := fun x hx => (List.pairwise_cons.mp hpw).1 x hx
    have hb2 : ∀ x ∈ D, x < (l.eraseIdx d).length := by
      intro x hx
      have h1 := hgt x hx
      have h2 := List.length_eraseIdx_of_lt hd
      omega
    rw [ih (l.eraseIdx d) (List.pairwise_cons.mp hpw).2 hb2]
    have := keepNotIn_eraseIdx l d 0 D (fun x hx => by have := hgt x hx; omega) hd
    rw [this, show (0 + d) = d from by omega]

theorem sortDescending_perm (indices : List Nat) :
    (sortDescending indices).Perm indices :=
  List.perm_insertionSort _ indices

theorem sortDescending_strict {indices : List Nat} (h : indices.Nodup) :
    List.Pairwise (· > ·) (sortDescending indices) := by
  have hnd : (sortDescending indices).Nodup :=
    ((sortDescending_perm indices).nodup_iff).mpr h
  have hs : List.Pairwise (· ≥ ·) (sortDescending indices) :=
    List.sorted_insertionSort _ indices
  exact (hs.and hnd).imp fun hab => lt_of_le_of_ne hab.1 (Ne.symm hab.2)

/-- C8: for a pending queue and any duplicate-free list of valid
positions, remove_pending_by_indices removes exactly the entries at those
logical positions, keeping the remaining entries in their original
relative order (keepNotIn), and the result does not depend on the order
in which the positions are given. -/
theorem remove_by_indices_exact (pending : List PendingWorklog) (indices : List Nat)
    (hnd : indices.Nodup) (hin : ∀ idx ∈ indices, idx < pending.length) :
    remove_pending_by_indices pending indices = keepNotIn indices 0 pending ∧
    ∀ indices2 : List Nat, indices2.Nodup → (∀ n, n ∈ indices2 ↔ n ∈ indices) →
      remove_pending_by_indices pending indices2 =
        remove_pending_by_indices pending indices := by
  have main : ∀ ixs : List Nat, ixs.Nodup → (∀ idx ∈ ixs, idx < pending.length) →
      remove_pending_by_indices pending ixs = keepNotIn ixs 0 pending := by
    intro ixs hnd2 hin2
    unfold remove_pending_by_indices
    rw [foldl_eraseIdx_keepNotIn (sortDescending ixs) pending (sortDescending_strict hnd2)
      (fun d hd => hin2 d ((sortDescending_perm ixs).mem_iff.mp hd))]
    exact keepNotIn_congr pending 0 _ _ fun n => (sortDescending_perm ixs).mem_iff
  refine ⟨main indices hnd hin, ?_⟩
  intro ixs2 hnd2 hiff
  rw [main indices hnd hin, main ixs2 hnd2 fun idx h => hin idx ((hiff idx).mp h)]
  exact keepNotIn_congr pending 0 ixs2 indices hiff

/-- Witness for C8: removing positions 2 and 0 from a three-entry queue
keeps exactly the middle entry. -/
theorem remove_by_indices_exact_witness :
    remove_pending_by_indices
        [{ issue_key := "A", seconds := 1, comment := "", created_at := 0 },
         { issue_key := "B", seconds := 2, comment := "", created_at := 0 },
         { issue_key := "C", seconds := 3, comment := "", created_at := 0 }] [2, 0] =
      keepNotIn [2, 0] 0
        [{ issue_key := "A", seconds := 1, comment := "", created_at := 0 },
         { issue_key := "B", seconds := 2, comment := "", created_at := 0 },
         { issue_key := "C", seconds := 3, comment := "", created_at := 0 }] :=
  (remove_by_indices_exact _ [2, 0] (by decide) (by decide)).1

end JiraStopWatch
